import Mathlib

/-!
# Quotes service: the in-memory store of `backend/main.go`

A shallow embedding of the five HTTP handlers of `backend/main.go` and of the
package-level state they share (`quotes`, `nextID`), followed by the properties
of the store that the specification states.

Modelling conventions.

* The package-level variables `quotes` and `nextID` are the two fields of `Store`;
  every handler runs from `mutex.Lock()` to the deferred `mutex.Unlock()`, so a
  handler is one function `Store → Store × Response`.
* Go's `int` is modelled by `Int`.  The only arithmetic the program performs is
  `nextID++`, starting from `6`; the wrap-around of a 64-bit counter after
  `2^63 - 6` successful creations is outside the model.
* What the libraries hand to a handler is an input of the model: the integer that
  `fmt.Sscanf(params["id"], "%d", &id)` leaves in `id`, the result of
  `json.NewDecoder(r.Body).Decode` (`none` when it returns an error, `some q` for
  the decoded value), and the string `time.Now().Format(time.RFC3339)`.
* How `fmt.Sscanf` obtains that integer from the path segment is the function
  `pathID`, written after the scanner of Go's package `fmt`.
-/

namespace QuotesApp

/-- Quote structure of `main.go` (lines 16-23). -/
structure Quote where
  ID : Int
  Text : String
  Author : String
  Category : String
  Color : String
  AddedAt : String
deriving DecidableEq

/-- The package-level variables `quotes` and `nextID` (lines 26-71). -/
structure Store where
  quotes : List Quote
  nextID : Int
deriving DecidableEq

/-- What a handler passes to `json.NewEncoder(w).Encode`, or nothing. -/
inductive Body where
  | quotes (qs : List Quote)
  | quote (q : Quote)
  | error (msg : String)
  | empty
deriving DecidableEq

/-- The response a handler writes: the status code, the `Content-Type` header the
handler itself has set by the time the header is written, and the encoded value. -/
structure Response where
  status : Nat
  contentType : Option String
  body : Body
deriving DecidableEq

/-- Initial value of `quotes` (lines 27-68); `t i` is the reading of
`time.Now().Format(time.RFC3339)` in the `i`-th literal. -/
def seedQuotes (t : Fin 5 → String) : List Quote :=
  [ { ID := 1
      Text := "The only way to do great work is to love what you do."
      Author := "Steve Jobs"
      Category := "Motivation"
      Color := "from-purple-500 to-pink-500"
      AddedAt := t 0 },
    { ID := 2
      Text := "Innovation distinguishes between a leader and a follower."
      Author := "Steve Jobs"
      Category := "Leadership"
      Color := "from-blue-500 to-cyan-400"
      AddedAt := t 1 },
    { ID := 3
      Text := "Design is not just what it looks like and feels like. Design is how it works."
      Author := "Steve Jobs"
      Category := "Design"
      Color := "from-green-400 to-teal-500"
      AddedAt := t 2 },
    { ID := 4
      Text := "Your time is limited, so don't waste it living someone else's life."
      Author := "Steve Jobs"
      Category := "Life"
      Color := "from-yellow-400 to-orange-500"
      AddedAt := t 3 },
    { ID := 5
      Text := "Think different."
      Author := "Apple Inc."
      Category := "Innovation"
      Color := "from-red-500 to-pink-500"
      AddedAt := t 4 } ]

/-- The store at process start: the seeded `quotes` and `nextID = 6` (line 70). -/
def initStore (t : Fin 5 → String) : Store :=
  { quotes := seedQuotes t, nextID := 6 }

/-- The loop `for i, quote := range quotes { if quote.ID == id { ... return } }`
shared by `getQuote`, `updateQuote` and `deleteQuote`: the index and the value of
the first element whose `ID` is `id`, or `none` when the loop runs to its end. -/
def findByID (id : Int) : List Quote → Option (Nat × Quote)
  | [] => none
  | q :: qs =>
    if q.ID = id then some (0, q)
    else (findByID id qs).map (fun p => (p.1 + 1, p.2))

/-- The JSON content type the handlers set. -/
def applicationJSON : String := "application/json"

/-- The 404 answer of lines 115-116, 172-173, 194-195: `WriteHeader` comes first,
no header is set. -/
def notFound : Response :=
  { status := 404, contentType := none, body := Body.error "Quote not found" }

/-- The 400 answer of lines 127-128 and 156-157. -/
def badRequest : Response :=
  { status := 400, contentType := none, body := Body.error "Invalid request body" }

/-- Handler `getQuotes` (lines 90-96). -/
def getQuotes (s : Store) : Store × Response :=
  (s, { status := 200, contentType := some applicationJSON, body := Body.quotes s.quotes })

/-- Handler `getQuote` (lines 99-117). -/
def getQuote (s : Store) (id : Int) : Store × Response :=
  match findByID id s.quotes with
  | some (_, quote) =>
    (s, { status := 200, contentType := some applicationJSON, body := Body.quote quote })
  | none => (s, notFound)

/-- Handler `createQuote` (lines 120-142); `decoded` is the outcome of decoding the
body and `now` the formatted clock reading of line 135. -/
def createQuote (s : Store) (decoded : Option Quote) (now : String) : Store × Response :=
  match decoded with
  | none => (s, badRequest)
  | some q =>
    let quote : Quote := { q with ID := s.nextID, AddedAt := now }
    ({ quotes := s.quotes ++ [quote], nextID := s.nextID + 1 },
     { status := 201, contentType := some applicationJSON, body := Body.quote quote })

/-- Handler `updateQuote` (lines 145-174): the body is decoded before the scan. -/
def updateQuote (s : Store) (id : Int) (decoded : Option Quote) : Store × Response :=
  match decoded with
  | none => (s, badRequest)
  | some u =>
    match findByID id s.quotes with
    | some (i, _) =>
      let updatedQuote : Quote := { u with ID := id }
      ({ s with quotes := s.quotes.set i updatedQuote },
       { status := 200, contentType := some applicationJSON, body := Body.quote updatedQuote })
    | none => (s, notFound)

/-- Handler `deleteQuote` (lines 177-196):
`quotes = append(quotes[:i], quotes[i+1:]...)`. -/
def deleteQuote (s : Store) (id : Int) : Store × Response :=
  match findByID id s.quotes with
  | some (i, _) =>
    ({ s with quotes := s.quotes.take i ++ s.quotes.drop (i + 1) },
     { status := 204, contentType := none, body := Body.empty })
  | none => (s, notFound)

/-- One request as the router of `main` (lines 77-81) dispatches it. -/
inductive Request where
  | list
  | get (id : Int)
  | create (decoded : Option Quote) (now : String)
  | update (id : Int) (decoded : Option Quote)
  | delete (id : Int)
deriving DecidableEq

/-- Route table of `main` (lines 77-81). -/
def handle (s : Store) : Request → Store × Response
  | Request.list => getQuotes s
  | Request.get id => getQuote s id
  | Request.create decoded now => createQuote s decoded now
  | Request.update id decoded => updateQuote s id decoded
  | Request.delete id => deleteQuote s id

/-- The store after a sequence of requests, served one after the other. -/
def run (s : Store) : List Request → Store
  | [] => s
  | r :: rs => run (handle s r).1 rs

/-- The record a request put into the store: the body of a 201 answer to a
`POST /quotes`, nothing for any other request or answer. -/
def createdBy (r : Request) (resp : Response) : List Quote :=
  match r, resp.body with
  | Request.create _ _, Body.quote q => if resp.status = 201 then [q] else []
  | _, _ => []

/-- The records returned by the successful creations of a request sequence, in
call order. -/
def createdQuotes (s : Store) : List Request → List Quote
  | [] => []
  | r :: rs => createdBy r (handle s r).2 ++ createdQuotes (handle s r).1 rs

/-- The ids returned by the successful creations of a request sequence, in call
order. -/
def createdIDs (s : Store) (rs : List Request) : List Int :=
  (createdQuotes s rs).map Quote.ID

/-- Every id handed out so far: the five seeded ids and the ids of the successful
creations, whether or not the quote is still stored. -/
def issuedIDs (t : Fin 5 → String) (rs : List Request) : List Int :=
  (seedQuotes t).map Quote.ID ++ createdIDs (initStore t) rs

/-- The ids of the stored quotes, in sequence order. -/
def Store.ids (s : Store) : List Int := s.quotes.map Quote.ID

/-- The invariant of the reachable stores: the stored ids increase strictly along
the sequence and lie between `1` and `nextID`, and `nextID` is positive. -/
def StoreInv (s : Store) : Prop :=
  s.ids.Pairwise (· < ·) ∧ (∀ x ∈ s.ids, 1 ≤ x ∧ x < s.nextID) ∧ 1 ≤ s.nextID

/-- Whether a request is a `PUT /quotes/{id}`. -/
def Request.isUpdate : Request → Bool
  | Request.update _ _ => true
  | _ => false

/-- The `addedAt` value of the stored quote that a request for `id` addresses, when
there is one. -/
def addedAtOf (s : Store) (id : Int) : Option String :=
  (findByID id s.quotes).map (fun p => p.2.AddedAt)

/-- A clock for the seed literals, used in the concrete runs below. -/
def sampleClock : Fin 5 → String := fun _ => "2024-01-01T00:00:00Z"

/-- A decoded body that sets the four content fields, carries an id of its own and
omits `addedAt`. -/
def sampleQuote : Quote :=
  { ID := 77, Text := "X", Author := "Y", Category := "Z", Color := "c", AddedAt := "" }

/-- Go standard library, `fmt/scan.go`, `isSpace`: the white-space table that
`SkipSpace` consults. -/
def isSpace (c : Char) : Bool :=
  let n := c.toNat
  (9 ≤ n && n ≤ 13) || n = 32 || n = 133 || n = 160 || n = 5760 ||
  (8192 ≤ n && n ≤ 8202) || n = 8232 || n = 8233 || n = 8239 || n = 8287 || n = 12288

/-- Go standard library, `fmt/scan.go`, `(*ss).SkipSpace` as `Sscanf` runs it: blanks
are dropped, a newline (code 10) is the error "unexpected newline" (`none`). -/
def SkipSpace : List Char → Option (List Char)
  | [] => some []
  | c :: cs =>
    if c.toNat = 10 then none
    else if isSpace c then SkipSpace cs
    else some (c :: cs)

/-- The characters `scanNumber` accepts for the verb `%d`: the digit set `0123456789`
that `getBase` returns for base 10. -/
def isDecimalDigit (c : Char) : Bool :=
  48 ≤ c.toNat && c.toNat ≤ 57

/-- The value `strconv.ParseInt(tok, 10, 64)` computes from the digits of a token;
a character that is not a decimal digit is a syntax error (`none`). -/
def parseDigits : List Char → Nat → Option Nat
  | [], acc => some acc
  | c :: cs, acc =>
    if 48 ≤ c.toNat ∧ c.toNat ≤ 57 then parseDigits cs (10 * acc + (c.toNat - 48))
    else none

/-- Go standard library, `fmt/scan.go`, `(*ss).scanInt` for the verb `%d` and an `int`
operand of 64 bits: leading blanks are skipped, one sign (`+` 43, `-` 45) is accepted,
the longest run of decimal digits is the token, and the token is handed to
`strconv.ParseInt(tok, 10, 64)`.  The input after the token is not read.  `none`
stands for every error (end of input, no digit, range error of `ParseInt`). -/
def scanInt (input : List Char) : Option Int :=
  match SkipSpace input with
  | none => none
  | some [] => none
  | some (c :: cs) =>
    let negative := decide (c.toNat = 45)
    let rest := if c.toNat = 43 ∨ c.toNat = 45 then cs else c :: cs
    let tok := rest.takeWhile isDecimalDigit
    match tok with
    | [] => none
    | _ :: _ =>
      match parseDigits tok 0 with
      | none => none
      | some v =>
        let i : Int := if negative then -(v : Int) else (v : Int)
        if -(2 : Int) ^ 63 ≤ i ∧ i ≤ 2 ^ 63 - 1 then some i else none

/-- The statements `var id int; fmt.Sscanf(params["id"], "%d", &id)` of `getQuote`,
`updateQuote` and `deleteQuote` (lines 104-105, 150-151, 182-183): `id` keeps the
zero value when the scan reports an error, which the handlers do not inspect. -/
def pathID (segment : String) : Int :=
  (scanInt segment.data).getD 0

/-! ## The scan loop -/

theorem findByID_eq_none {id : Int} {l : List Quote} :
    findByID id l = none ↔ ∀ q ∈ l, q.ID ≠ id := by
  induction l with
  | nil => simp [findByID]
  | cons a l ih =>
    by_cases h : a.ID = id
    · simp [findByID, h]
    · simp [findByID, h, ih]

theorem findByID_some {id : Int} {l : List Quote} {i : Nat} {q : Quote}
    (h : findByID id l = some (i, q)) :
    l[i]? = some q ∧ q.ID = id ∧ ∀ j, j < i → ∀ q', l[j]? = some q' → q'.ID ≠ id := by
  induction l generalizing i with
  | nil => simp [findByID] at h
  | cons a l ih =>
    by_cases ha : a.ID = id
    · simp only [findByID, ha, if_true, Option.some.injEq, Prod.mk.injEq] at h
      obtain ⟨rfl, rfl⟩ := h
      refine ⟨by simp, ha, ?_⟩
      intro j hj
      omega
    · simp only [findByID, ha, if_false, Option.map_eq_some', Prod.mk.injEq] at h
      obtain ⟨⟨k, q0⟩, hk, rfl, rfl⟩ := h
      obtain ⟨h1, h2, h3⟩ := ih hk
      refine ⟨by simpa using h1, h2, ?_⟩
      intro j hj q' hq'
      cases j with
      | zero =>
        simp only [List.getElem?_cons_zero, Option.some.injEq] at hq'
        subst hq'
        exact ha
      | succ j =>
        simp only [List.getElem?_cons_succ] at hq'
        exact h3 j (by omega) q' hq'

theorem findByID_of_mem {id : Int} {l : List Quote} (h : ∃ q ∈ l, q.ID = id) :
    ∃ i q, findByID id l = some (i, q) := by
  cases hf : findByID id l with
  | none =>
    obtain ⟨q, hq, hid⟩ := h
    exact absurd hid (findByID_eq_none.mp hf q hq)
  | some p => exact ⟨p.1, p.2, rfl⟩

theorem findByID_lt {id : Int} {l : List Quote} {i : Nat} {q : Quote}
    (h : findByID id l = some (i, q)) : i < l.length := by
  have h1 := (findByID_some h).1
  exact (List.getElem?_eq_some_iff.mp h1).1

theorem findByID_mem {id : Int} {l : List Quote} {i : Nat} {q : Quote}
    (h : findByID id l = some (i, q)) : q ∈ l :=
  List.getElem?_mem (findByID_some h).1

/-! ## Effect of each handler on the store -/

theorem getQuotes_store (s : Store) : (getQuotes s).1 = s := rfl

theorem getQuote_store (s : Store) (id : Int) : (getQuote s id).1 = s := by
  unfold getQuote
  cases findByID id s.quotes with
  | none => rfl
  | some p => rfl

theorem deleteQuote_of_find {s : Store} {id : Int} {i : Nat} {q : Quote}
    (h : findByID id s.quotes = some (i, q)) :
    deleteQuote s id =
      ({ s with quotes := s.quotes.eraseIdx i },
       { status := 204, contentType := none, body := Body.empty }) := by
  simp only [deleteQuote, h, List.eraseIdx_eq_take_drop_succ]

theorem deleteQuote_of_none {s : Store} {id : Int} (h : findByID id s.quotes = none) :
    deleteQuote s id = (s, notFound) := by
  simp only [deleteQuote, h]

theorem updateQuote_of_find {s : Store} {id : Int} {u : Quote} {i : Nat} {q : Quote}
    (h : findByID id s.quotes = some (i, q)) :
    updateQuote s id (some u) =
      ({ s with quotes := s.quotes.set i { u with ID := id } },
       { status := 200, contentType := some applicationJSON,
         body := Body.quote { u with ID := id } }) := by
  simp only [updateQuote, h]

theorem updateQuote_of_none {s : Store} {id : Int} {u : Quote}
    (h : findByID id s.quotes = none) :
    updateQuote s id (some u) = (s, notFound) := by
  simp only [updateQuote, h]

theorem updateQuote_ids (s : Store) (id : Int) (d : Option Quote) :
    (updateQuote s id d).1.ids = s.ids := by
  cases d with
  | none => rfl
  | some u =>
    cases hf : findByID id s.quotes with
    | none => rw [updateQuote_of_none hf]
    | some p =>
      obtain ⟨i, q⟩ := p
      rw [updateQuote_of_find hf]
      obtain ⟨h1, h2, -⟩ := findByID_some hf
      simp only [Store.ids, List.map_set]
      apply List.ext_getElem?
      intro j
      rw [List.getElem?_set]
      split
      · next hij =>
        subst hij
        obtain ⟨hlt, hq⟩ := List.getElem?_eq_some_iff.mp h1
        simp [hlt, hq, h2]
      · rfl

theorem updateQuote_nextID (s : Store) (id : Int) (d : Option Quote) :
    (updateQuote s id d).1.nextID = s.nextID := by
  cases d with
  | none => rfl
  | some u =>
    cases hf : findByID id s.quotes with
    | none => rw [updateQuote_of_none hf]
    | some p => rw [updateQuote_of_find hf]

theorem deleteQuote_nextID (s : Store) (id : Int) :
    (deleteQuote s id).1.nextID = s.nextID := by
  cases hf : findByID id s.quotes with
  | none => rw [deleteQuote_of_none hf]
  | some p => rw [deleteQuote_of_find hf]

theorem deleteQuote_sublist (s : Store) (id : Int) :
    (deleteQuote s id).1.quotes.Sublist s.quotes := by
  cases hf : findByID id s.quotes with
  | none => rw [deleteQuote_of_none hf]
  | some p =>
    rw [deleteQuote_of_find hf]
    exact List.eraseIdx_sublist _ _

theorem handle_nextID_le (s : Store) (r : Request) : s.nextID ≤ (handle s r).1.nextID := by
  cases r with
  | list => exact le_refl _
  | get id => rw [handle, getQuote_store]
  | create d now =>
    cases d with
    | none => exact le_refl _
    | some q => simp [handle, createQuote]
  | update id d => rw [handle, updateQuote_nextID]
  | delete id => rw [handle, deleteQuote_nextID]

theorem run_nextID_le (s : Store) (rs : List Request) : s.nextID ≤ (run s rs).nextID := by
  induction rs generalizing s with
  | nil => exact le_refl _
  | cons r rs ih => exact le_trans (handle_nextID_le s r) (ih _)

/-! ## The invariant of the reachable stores -/

theorem storeInv_init (t : Fin 5 → String) : StoreInv (initStore t) := by
  simp [StoreInv, Store.ids, initStore, seedQuotes]

theorem storeInv_handle {s : Store} (h : StoreInv s) (r : Request) :
    StoreInv (handle s r).1 := by
  cases r with
  | list => exact h
  | get id => rw [handle, getQuote_store]; exact h
  | create d now =>
    cases d with
    | none => exact h
    | some q =>
      obtain ⟨h1, h2, h3⟩ := h
      simp only [handle, createQuote, StoreInv, Store.ids, List.map_append, List.map_cons,
        List.map_nil, List.pairwise_append, List.mem_append, List.mem_singleton]
      refine ⟨⟨h1, List.pairwise_singleton _ _, ?_⟩, ?_, by omega⟩
      · intro a ha b hb
        subst hb
        exact (h2 a ha).2
      · intro x hx
        rcases hx with hx | hx
        · have := h2 x hx
          omega
        · omega
  | update id d =>
    unfold StoreInv
    rw [handle, updateQuote_ids, updateQuote_nextID]
    exact h
  | delete id =>
    obtain ⟨h1, h2, h3⟩ := h
    have hsub : (handle s (Request.delete id)).1.ids.Sublist s.ids :=
      (deleteQuote_sublist s id).map _
    refine ⟨h1.sublist hsub, ?_, ?_⟩
    · intro x hx
      rw [handle, deleteQuote_nextID]
      exact h2 x (hsub.subset hx)
    · rw [handle, deleteQuote_nextID]
      exact h3

theorem storeInv_run {s : Store} (h : StoreInv s) (rs : List Request) :
    StoreInv (run s rs) := by
  induction rs generalizing s with
  | nil => exact h
  | cons r rs ih => exact ih (storeInv_handle h r)

/-! ## The trace of successful creations -/

theorem createdBy_create_some (s : Store) (q : Quote) (now : String) :
    createdBy (Request.create (some q) now) (handle s (Request.create (some q) now)).2 =
      [{ q with ID := s.nextID, AddedAt := now }] := by
  simp [createdBy, handle, createQuote]

theorem createdBy_ID (s : Store) (r : Request) :
    ∀ q ∈ createdBy r (handle s r).2,
      q.ID = s.nextID ∧ (handle s r).1.nextID = s.nextID + 1 := by
  cases r with
  | list => simp [createdBy]
  | get id => simp [createdBy]
  | create d now =>
    cases d with
    | none => simp [createdBy, handle, createQuote, badRequest]
    | some c => simp [createdBy, handle, createQuote]
  | update id d => simp [createdBy]
  | delete id => simp [createdBy]

theorem createdIDs_ge (s : Store) (rs : List Request) :
    ∀ x ∈ createdIDs s rs, s.nextID ≤ x := by
  induction rs generalizing s with
  | nil => simp [createdIDs, createdQuotes]
  | cons r rs ih =>
    intro x hx
    simp only [createdIDs, createdQuotes, List.map_append, List.mem_append, List.mem_map] at hx
    rcases hx with ⟨q, hq, rfl⟩ | ⟨q, hq, rfl⟩
    · exact le_of_eq (createdBy_ID s r q hq).1.symm
    · exact le_trans (handle_nextID_le s r)
        (ih (handle s r).1 q.ID (List.mem_map_of_mem _ hq))

theorem createdIDs_lt_run (s : Store) (rs : List Request) :
    ∀ x ∈ createdIDs s rs, x < (run s rs).nextID := by
  induction rs generalizing s with
  | nil => simp [createdIDs, createdQuotes]
  | cons r rs ih =>
    intro x hx
    simp only [createdIDs, createdQuotes, List.map_append, List.mem_append, List.mem_map] at hx
    rcases hx with ⟨q, hq, rfl⟩ | ⟨q, hq, rfl⟩
    · obtain ⟨h1, h2⟩ := createdBy_ID s r q hq
      have h3 := run_nextID_le (handle s r).1 rs
      simp only [run]
      omega
    · exact ih (handle s r).1 q.ID (List.mem_map_of_mem _ hq)

theorem createdIDs_pairwise (s : Store) (rs : List Request) :
    (createdIDs s rs).Pairwise (· < ·) := by
  induction rs generalizing s with
  | nil => simp [createdIDs, createdQuotes]
  | cons r rs ih =>
    simp only [createdIDs, createdQuotes, List.map_append, List.pairwise_append]
    refine ⟨?_, ih (handle s r).1, ?_⟩
    · cases r with
      | list => simp [createdBy]
      | get id => simp [createdBy]
      | create d now =>
        cases d with
        | none => simp [createdBy, handle, createQuote, badRequest]
        | some c => simp [createdBy, handle, createQuote]
      | update id d => simp [createdBy]
      | delete id => simp [createdBy]
    · intro a ha b hb
      obtain ⟨q, hq, rfl⟩ := List.mem_map.mp ha
      obtain ⟨h1, h2⟩ := createdBy_ID s r q hq
      have h3 := createdIDs_ge (handle s r).1 rs b hb
      omega

theorem findByID_append_new {id : Int} {l : List Quote} (q : Quote)
    (h : findByID id l = none) (hq : q.ID = id) :
    findByID id (l ++ [q]) = some (l.length, q) := by
  induction l with
  | nil => simp [findByID, hq]
  | cons a l ih =>
    by_cases ha : a.ID = id
    · simp [findByID, ha] at h
    · simp only [findByID, ha, if_false, Option.map_eq_none'] at h
      simp [findByID, ha, ih h]

theorem storeInv_fresh {s : Store} (h : StoreInv s) : findByID s.nextID s.quotes = none := by
  rw [findByID_eq_none]
  intro q hq heq
  have := (h.2.1 q.ID (List.mem_map_of_mem _ hq)).2
  omega

theorem storeInv_unique {s : Store} (h : StoreInv s) {i j : Nat} {a b : Quote}
    (ha : s.quotes[i]? = some a) (hb : s.quotes[j]? = some b) (hid : a.ID = b.ID) :
    i = j := by
  obtain ⟨hi, rfl⟩ := List.getElem?_eq_some_iff.mp ha
  obtain ⟨hj, rfl⟩ := List.getElem?_eq_some_iff.mp hb
  have hp := List.pairwise_iff_getElem.mp h.1
  simp only [Store.ids, List.length_map, List.getElem_map] at hp
  rcases Nat.lt_trichotomy i j with hlt | heq | hgt
  · have := hp i j hi hj hlt
    omega
  · exact heq
  · have := hp j i hj hi hgt
    omega

theorem storeInv_eq_of_ID {s : Store} (h : StoreInv s) {a b : Quote}
    (ha : a ∈ s.quotes) (hb : b ∈ s.quotes) (hid : a.ID = b.ID) : a = b := by
  obtain ⟨i, hi⟩ := List.mem_iff_getElem?.mp ha
  obtain ⟨j, hj⟩ := List.mem_iff_getElem?.mp hb
  have hij := storeInv_unique h hi hj hid
  subst hij
  rw [hi] at hj
  exact Option.some.inj hj

theorem findByID_append_of_some {id : Int} {l : List Quote} {p : Nat × Quote}
    (h : findByID id l = some p) (l' : List Quote) : findByID id (l ++ l') = some p := by
  induction l generalizing p with
  | nil => simp [findByID] at h
  | cons a l ih =>
    by_cases ha : a.ID = id
    · simpa [findByID, ha] using h
    · simp only [findByID, ha, if_false, Option.map_eq_some'] at h
      obtain ⟨p0, hp0, rfl⟩ := h
      simp [findByID, ha, ih hp0]

theorem findByID_set_other {id : Int} {l : List Quote} {k : Nat} {u : Quote}
    (hu : u.ID ≠ id) (hk : ∀ x, l[k]? = some x → x.ID ≠ id) :
    findByID id (l.set k u) = findByID id l := by
  induction l generalizing k with
  | nil => rfl
  | cons a l ih =>
    cases k with
    | zero =>
      have ha : a.ID ≠ id := hk a (by simp)
      simp [findByID, ha, hu]
    | succ k =>
      have hk' : ∀ x, l[k]? = some x → x.ID ≠ id := by
        intro x hx
        exact hk x (by simpa using hx)
      simp only [List.set_cons_succ, findByID, ih hk']

theorem findByID_eraseIdx_other {id : Int} {l : List Quote} {k : Nat}
    (hk : ∀ x, l[k]? = some x → x.ID ≠ id) :
    (findByID id (l.eraseIdx k)).map Prod.snd = (findByID id l).map Prod.snd := by
  induction l generalizing k with
  | nil => rfl
  | cons a l ih =>
    cases k with
    | zero =>
      have ha : a.ID ≠ id := hk a (by simp)
      simp [findByID, ha, Function.comp_def]
    | succ k =>
      have hk' : ∀ x, l[k]? = some x → x.ID ≠ id := by
        intro x hx
        exact hk x (by simpa using hx)
      by_cases ha : a.ID = id
      · simp [findByID, ha]
      · simp only [List.eraseIdx_cons_succ, findByID, ha, if_false, Option.map_map]
        have := ih hk'
        simpa [Function.comp_def] using this

theorem findByID_set_self {id : Int} {l : List Quote} {i : Nat} {q u : Quote}
    (h : findByID id l = some (i, q)) (hu : u.ID = id) :
    findByID id (l.set i u) = some (i, u) := by
  induction l generalizing i with
  | nil => simp [findByID] at h
  | cons a l ih =>
    by_cases ha : a.ID = id
    · simp only [findByID, ha, if_true, Option.some.injEq, Prod.mk.injEq] at h
      obtain ⟨rfl, rfl⟩ := h
      simp [findByID, hu]
    · simp only [findByID, ha, if_false, Option.map_eq_some', Prod.mk.injEq] at h
      obtain ⟨⟨k, q0⟩, hk, rfl, rfl⟩ := h
      simp [findByID, ha, ih hk]

/-! ## The properties of the specification -/

/-- C1 (uniqueness): for every request sequence served from the seeded store, the
ids returned by the successful `createQuote` calls increase strictly in call order
and are pairwise distinct. -/
theorem created_ids_strictly_increasing (t : Fin 5 → String) (rs : List Request) :
    (createdIDs (initStore t) rs).Pairwise (· < ·) ∧ (createdIDs (initStore t) rs).Nodup := by
  have h := createdIDs_pairwise (initStore t) rs
  exact ⟨h, h.imp (fun hab => ne_of_lt hab)⟩

/-- C2 (store invariant a): in every store reached from the seeded store by any
sequence of requests, whatever ids and bodies they carry, the ids of the stored
quotes are pairwise distinct. -/
theorem reachable_ids_nodup (t : Fin 5 → String) (rs : List Request) :
    (run (initStore t) rs).ids.Nodup :=
  (storeInv_run (storeInv_init t) rs).1.imp (fun hab => ne_of_lt hab)

/-- C3 (store invariant b): in every store reached from the seeded store, `nextID`
is strictly greater than the id of every stored quote and than every id issued so
far (seeded or created, deleted since or not); hence no creation that follows
returns an id issued before. -/
theorem nextID_above_issued (t : Fin 5 → String) (rs : List Request) :
    (∀ q ∈ (run (initStore t) rs).quotes, q.ID < (run (initStore t) rs).nextID) ∧
    (∀ x ∈ issuedIDs t rs, x < (run (initStore t) rs).nextID) ∧
    (∀ more : List Request, ∀ x ∈ createdIDs (run (initStore t) rs) more,
      x ∉ issuedIDs t rs) := by
  have hinv := storeInv_run (storeInv_init t) rs
  have hissued : ∀ x ∈ issuedIDs t rs, x < (run (initStore t) rs).nextID := by
    intro x hx
    simp only [issuedIDs, List.mem_append] at hx
    rcases hx with hx | hx
    · have h6 : (initStore t).nextID ≤ (run (initStore t) rs).nextID := run_nextID_le _ rs
      have hx5 : x < 6 := by
        simp only [seedQuotes, List.map_cons, List.map_nil, List.mem_cons,
          List.mem_singleton, List.not_mem_nil, or_false] at hx
        omega
      have h7 : (initStore t).nextID = 6 := rfl
      omega
    · exact createdIDs_lt_run _ rs x hx
  refine ⟨?_, hissued, ?_⟩
  · intro q hq
    exact (hinv.2.1 q.ID (List.mem_map_of_mem _ hq)).2
  · intro more x hx hmem
    have h1 := createdIDs_ge _ more x hx
    have h2 := hissued x hmem
    omega

/-- C4 (read-your-writes): in every store reached from the seeded store, a
`createQuote` with a decodable body answers 201 with a record `r`, and `getQuote`
on `r.ID` right afterwards answers 200 with that same record. -/
theorem read_your_writes (t : Fin 5 → String) (rs : List Request) (q : Quote) (now : String) :
    ∃ r : Quote,
      (createQuote (run (initStore t) rs) (some q) now).2 =
        { status := 201, contentType := some applicationJSON, body := Body.quote r } ∧
      (getQuote (createQuote (run (initStore t) rs) (some q) now).1 r.ID).2 =
        { status := 200, contentType := some applicationJSON, body := Body.quote r } := by
  have hinv := storeInv_run (storeInv_init t) rs
  refine ⟨{ q with ID := (run (initStore t) rs).nextID, AddedAt := now }, rfl, ?_⟩
  have hf := findByID_append_new
    ({ q with ID := (run (initStore t) rs).nextID, AddedAt := now } : Quote)
    (storeInv_fresh hinv) rfl
  simp only [getQuote, createQuote, hf]

/-- C5 (delete removes exactly one): in every store reached from the seeded store,
`deleteQuote` on an id that some stored quote carries answers 204, leaves a sequence
exactly one element shorter in which no record has that id, and a `getQuote` on the
same id right afterwards answers 404. -/
theorem delete_removes_exactly_one (t : Fin 5 → String) (rs : List Request) (id : Int)
    (h : ∃ q ∈ (run (initStore t) rs).quotes, q.ID = id) :
    (deleteQuote (run (initStore t) rs) id).2.status = 204 ∧
    (deleteQuote (run (initStore t) rs) id).1.quotes.length + 1 =
      (run (initStore t) rs).quotes.length ∧
    (∀ q ∈ (deleteQuote (run (initStore t) rs) id).1.quotes, q.ID ≠ id) ∧
    (getQuote (deleteQuote (run (initStore t) rs) id).1 id).2.status = 404 := by
  have hinv := storeInv_run (storeInv_init t) rs
  obtain ⟨i, q0, hf⟩ := findByID_of_mem h
  obtain ⟨h1, h2, -⟩ := findByID_some hf
  have hgone : ∀ q ∈ ((run (initStore t) rs).quotes.eraseIdx i), q.ID ≠ id := by
    intro q hq hid
    obtain ⟨j, hj, hjq⟩ := List.mem_eraseIdx_iff_getElem?.mp hq
    exact hj (storeInv_unique hinv hjq h1 (hid.trans h2.symm))
  rw [deleteQuote_of_find hf]
  refine ⟨rfl, ?_, hgone, ?_⟩
  · simp only [List.length_eraseIdx, findByID_lt hf, if_true]
    have := findByID_lt hf
    omega
  · simp only [getQuote, findByID_eq_none.mpr hgone, notFound]

/-- Witness of C5: deleting quote 1 from the fresh store. -/
theorem delete_removes_exactly_one_witness :
    (∃ q ∈ (run (initStore sampleClock) []).quotes, q.ID = 1) ∧
    ((deleteQuote (run (initStore sampleClock) []) 1).2.status = 204 ∧
     (deleteQuote (run (initStore sampleClock) []) 1).1.quotes.length + 1 =
       (run (initStore sampleClock) []).quotes.length ∧
     (∀ q ∈ (deleteQuote (run (initStore sampleClock) []) 1).1.quotes, q.ID ≠ 1) ∧
     (getQuote (deleteQuote (run (initStore sampleClock) []) 1).1 1).2.status = 404) :=
  ⟨⟨_, List.mem_cons_self _ _, rfl⟩,
   delete_removes_exactly_one sampleClock [] 1 ⟨_, List.mem_cons_self _ _, rfl⟩⟩

/-- C6 (delete on a missing id): for every store and every id that no stored quote
carries, `deleteQuote` answers 404 with the error "Quote not found" and returns the
store, sequence and `nextID`, exactly as it was. -/
theorem delete_missing_id (s : Store) (id : Int) (h : ∀ q ∈ s.quotes, q.ID ≠ id) :
    (deleteQuote s id).2.status = 404 ∧
    (deleteQuote s id).2.body = Body.error "Quote not found" ∧
    (deleteQuote s id).1.quotes = s.quotes ∧
    (deleteQuote s id).1.nextID = s.nextID := by
  rw [deleteQuote_of_none (findByID_eq_none.mpr h)]
  exact ⟨rfl, rfl, rfl, rfl⟩

/-- Witness of C6: deleting id 99 from the fresh store. -/
theorem delete_missing_id_witness :
    (∀ q ∈ (initStore sampleClock).quotes, q.ID ≠ 99) ∧
    ((deleteQuote (initStore sampleClock) 99).2.status = 404 ∧
     (deleteQuote (initStore sampleClock) 99).2.body = Body.error "Quote not found" ∧
     (deleteQuote (initStore sampleClock) 99).1.quotes = (initStore sampleClock).quotes ∧
     (deleteQuote (initStore sampleClock) 99).1.nextID = (initStore sampleClock).nextID) :=
  ⟨by simp [initStore, seedQuotes],
   delete_missing_id (initStore sampleClock) 99 (by simp [initStore, seedQuotes])⟩

theorem run_sublist_created (s : Store) (rs : List Request)
    (h : ∀ r ∈ rs, r.isUpdate = false) :
    (run s rs).quotes.Sublist (s.quotes ++ createdQuotes s rs) := by
  induction rs generalizing s with
  | nil => simp [run, createdQuotes]
  | cons r rs ih =>
    have hr : r.isUpdate = false := h r (List.mem_cons_self _ _)
    have ih' := ih (handle s r).1 (fun x hx => h x (List.mem_cons_of_mem _ hx))
    simp only [run, createdQuotes]
    refine ih'.trans ?_
    rw [← List.append_assoc]
    refine List.Sublist.append_right ?_ _
    cases r with
    | list => simp [createdBy, handle, getQuotes]
    | get id => simp [createdBy, handle, getQuote_store]
    | create d now =>
      cases d with
      | none => simp [createdBy, handle, createQuote, badRequest]
      | some c => simp [createdBy, handle, createQuote]
    | update id d => simp [Request.isUpdate] at hr
    | delete id =>
      simp only [createdBy, handle, List.append_nil]
      exact deleteQuote_sublist s id

/-- C7 (order preservation): `createQuote` appends the record it returns at the end
of the sequence; a `deleteQuote` answering 204 erases the one element at the position
of the first record carrying the id and keeps all others in their order; `getQuotes`
answers 200 with the stored sequence, element by element in its order, and leaves the
store as it is.  Hence after any sequence of requests without an update, served from
the seeded store, the stored sequence, and with it the list that `getQuotes` answers,
is a subsequence of the seeded quotes followed by the created records in call order. -/
theorem order_preservation (t : Fin 5 → String) (rs : List Request)
    (h : ∀ r ∈ rs, r.isUpdate = false) :
    (∀ (s : Store) (q : Quote) (now : String), ∃ r : Quote,
      (createQuote s (some q) now).2.body = Body.quote r ∧
      (createQuote s (some q) now).1.quotes = s.quotes ++ [r]) ∧
    (∀ (s : Store) (id : Int), (deleteQuote s id).2.status = 204 →
      ∃ i : Nat, i < s.quotes.length ∧ (s.quotes[i]?).map Quote.ID = some id ∧
        (deleteQuote s id).1.quotes = s.quotes.eraseIdx i) ∧
    (run (initStore t) rs).quotes.Sublist (seedQuotes t ++ createdQuotes (initStore t) rs) ∧
    (∀ s : Store, (getQuotes s).1 = s ∧ (getQuotes s).2.status = 200 ∧
      (getQuotes s).2.body = Body.quotes s.quotes) ∧
    (∃ listed : List Quote,
      (getQuotes (run (initStore t) rs)).2.body = Body.quotes listed ∧
      listed = (run (initStore t) rs).quotes ∧
      listed.Sublist (seedQuotes t ++ createdQuotes (initStore t) rs)) := by
  refine ⟨?_, ?_, run_sublist_created (initStore t) rs h, fun s => ⟨rfl, rfl, rfl⟩,
    ⟨(run (initStore t) rs).quotes, rfl, rfl, run_sublist_created (initStore t) rs h⟩⟩
  · intro s q now
    exact ⟨{ q with ID := s.nextID, AddedAt := now }, rfl, rfl⟩
  · intro s id hs
    cases hf : findByID id s.quotes with
    | none =>
      rw [deleteQuote_of_none hf] at hs
      simp [notFound] at hs
    | some p =>
      obtain ⟨i, q0⟩ := p
      obtain ⟨h1, h2, -⟩ := findByID_some hf
      refine ⟨i, findByID_lt hf, ?_, ?_⟩
      · rw [h1, Option.map_some', h2]
      · rw [deleteQuote_of_find hf]

/-- Witness of C7: delete 3, create, delete 1, list, served from the fresh store; the
list answered afterwards is a subsequence of the seeded quotes followed by the created
record. -/
theorem order_preservation_witness :
    (∀ r ∈ [Request.delete 3, Request.create (some sampleQuote) "2024-02-02T00:00:00Z",
        Request.delete 1, Request.list], r.isUpdate = false) ∧
    (∃ listed : List Quote,
      (getQuotes (run (initStore sampleClock)
        [Request.delete 3, Request.create (some sampleQuote) "2024-02-02T00:00:00Z",
          Request.delete 1, Request.list])).2.body = Body.quotes listed ∧
      listed = (run (initStore sampleClock)
        [Request.delete 3, Request.create (some sampleQuote) "2024-02-02T00:00:00Z",
          Request.delete 1, Request.list]).quotes ∧
      listed.Sublist
        (seedQuotes sampleClock ++ createdQuotes (initStore sampleClock)
          [Request.delete 3, Request.create (some sampleQuote) "2024-02-02T00:00:00Z",
            Request.delete 1, Request.list])) :=
  ⟨by decide,
   (order_preservation sampleClock
      [Request.delete 3, Request.create (some sampleQuote) "2024-02-02T00:00:00Z",
        Request.delete 1, Request.list] (by decide)).2.2.2.2⟩

/-- C8 (update preserves identity): for every store, every id that some stored quote
carries and every decoded candidate, whatever id the candidate itself carries,
`updateQuote` answers 200 with a record whose id is the requested id, and the record
stored at the position of the match has that id before and after the call. -/
theorem update_preserves_id (s : Store) (id : Int) (c : Quote)
    (h : ∃ q ∈ s.quotes, q.ID = id) :
    ∃ (i : Nat) (r : Quote),
      (updateQuote s id (some c)).2.status = 200 ∧
      (updateQuote s id (some c)).2.body = Body.quote r ∧
      r.ID = id ∧
      (s.quotes[i]?).map Quote.ID = some id ∧
      ((updateQuote s id (some c)).1.quotes[i]?).map Quote.ID = some id := by
  obtain ⟨i, q0, hf⟩ := findByID_of_mem h
  obtain ⟨h1, h2, -⟩ := findByID_some hf
  refine ⟨i, { c with ID := id }, ?_⟩
  rw [updateQuote_of_find hf]
  refine ⟨rfl, rfl, rfl, ?_, ?_⟩
  · rw [h1, Option.map_some', h2]
  · simp [findByID_lt hf]

/-- Witness of C8: updating quote 2 of the fresh store with a candidate carrying
id 77. -/
theorem update_preserves_id_witness :
    (∃ q ∈ (initStore sampleClock).quotes, q.ID = 2) ∧
    (∃ (i : Nat) (r : Quote),
      (updateQuote (initStore sampleClock) 2 (some sampleQuote)).2.status = 200 ∧
      (updateQuote (initStore sampleClock) 2 (some sampleQuote)).2.body = Body.quote r ∧
      r.ID = 2 ∧
      ((initStore sampleClock).quotes[i]?).map Quote.ID = some 2 ∧
      ((updateQuote (initStore sampleClock) 2 (some sampleQuote)).1.quotes[i]?).map Quote.ID
        = some 2) :=
  ⟨⟨_, List.mem_cons_of_mem _ (List.mem_cons_self _ _), rfl⟩,
   update_preserves_id (initStore sampleClock) 2 sampleQuote
     ⟨_, List.mem_cons_of_mem _ (List.mem_cons_self _ _), rfl⟩⟩

/-- C9 (update is a full replacement): for every store, every id that some stored
quote carries and every decoded candidate `c`, the record `updateQuote` returns and
stores at the position of the match is `c` with its id set to the requested id: text,
author, category, color and addedAt are those of `c`, so a field that `c` leaves
empty is empty afterwards. -/
theorem update_full_replacement (s : Store) (id : Int) (c : Quote)
    (h : ∃ q ∈ s.quotes, q.ID = id) :
    ∃ (i : Nat) (r : Quote),
      (s.quotes[i]?).map Quote.ID = some id ∧
      (updateQuote s id (some c)).2.body = Body.quote r ∧
      (updateQuote s id (some c)).1.quotes[i]? = some r ∧
      r = { c with ID := id } ∧
      r.Text = c.Text ∧ r.Author = c.Author ∧ r.Category = c.Category ∧
      r.Color = c.Color ∧ r.AddedAt = c.AddedAt := by
  obtain ⟨i, q0, hf⟩ := findByID_of_mem h
  obtain ⟨h1, h2, -⟩ := findByID_some hf
  refine ⟨i, { c with ID := id }, ?_⟩
  rw [updateQuote_of_find hf]
  refine ⟨?_, rfl, ?_, rfl, rfl, rfl, rfl, rfl, rfl⟩
  · rw [h1, Option.map_some', h2]
  · simp [findByID_lt hf]

/-- Witness of C9: updating quote 4 of the fresh store with a candidate that omits
addedAt. -/
theorem update_full_replacement_witness :
    (∃ q ∈ (initStore sampleClock).quotes, q.ID = 4) ∧
    (∃ (i : Nat) (r : Quote),
      ((initStore sampleClock).quotes[i]?).map Quote.ID = some 4 ∧
      (updateQuote (initStore sampleClock) 4 (some sampleQuote)).2.body = Body.quote r ∧
      (updateQuote (initStore sampleClock) 4 (some sampleQuote)).1.quotes[i]? = some r ∧
      r = { sampleQuote with ID := 4 } ∧
      r.Text = sampleQuote.Text ∧ r.Author = sampleQuote.Author ∧
      r.Category = sampleQuote.Category ∧ r.Color = sampleQuote.Color ∧
      r.AddedAt = sampleQuote.AddedAt) :=
  ⟨⟨_, List.mem_cons_of_mem _ (List.mem_cons_of_mem _ (List.mem_cons_of_mem _
      (List.mem_cons_self _ _))), rfl⟩,
   update_full_replacement (initStore sampleClock) 4 sampleQuote
     ⟨_, List.mem_cons_of_mem _ (List.mem_cons_of_mem _ (List.mem_cons_of_mem _
      (List.mem_cons_self _ _))), rfl⟩⟩

/-- C10, as stated, fails: on the fresh store quote 1 carries the boot timestamp, and
after `PUT /quotes/1` with a body that omits addedAt the same quote, still stored,
carries the empty string. -/
theorem addedAt_changed_by_update :
    addedAtOf (initStore sampleClock) 1 = some "2024-01-01T00:00:00Z" ∧
    addedAtOf (run (initStore sampleClock) [Request.update 1 (some sampleQuote)]) 1 =
      some "" := by
  decide

/-- C10, amended: in every store reached from the seeded store, the addedAt of the
stored quote with a given id is left as it is by every request other than a delete
of that id and an update of that id with a decodable body; such an update replaces it
by the addedAt of the decoded candidate. -/
theorem addedAt_changes_only_by_update (t : Fin 5 → String) (rs : List Request)
    (r : Request) (id : Int) (a : String)
    (h : addedAtOf (run (initStore t) rs) id = some a) :
    ((∀ c, r ≠ Request.update id (some c)) → r ≠ Request.delete id →
      addedAtOf (handle (run (initStore t) rs) r).1 id = some a) ∧
    (∀ c : Quote,
      addedAtOf (handle (run (initStore t) rs) (Request.update id (some c))).1 id =
        some c.AddedAt) := by
  generalize run (initStore t) rs = s at h
  simp only [addedAtOf, Option.map_eq_some'] at h
  obtain ⟨⟨i, q⟩, hf, ha⟩ := h
  replace ha : q.AddedAt = a := ha
  constructor
  · intro hupd hdel
    cases r with
    | list => simp [handle, getQuotes, addedAtOf, hf, ha]
    | get j => simp [handle, getQuote_store, addedAtOf, hf, ha]
    | create d now =>
      cases d with
      | none => simp [handle, createQuote, addedAtOf, hf, ha]
      | some c =>
        simp [handle, createQuote, addedAtOf, findByID_append_of_some hf, ha]
    | update j d =>
      cases d with
      | none => simp [handle, updateQuote, addedAtOf, hf, ha]
      | some c =>
        have hj : j ≠ id := by
          intro hji
          exact hupd c (by rw [hji])
        cases hfj : findByID j s.quotes with
        | none => simp [handle, updateQuote_of_none hfj, addedAtOf, hf, ha]
        | some p =>
          obtain ⟨k, qk⟩ := p
          obtain ⟨hk1, hk2, -⟩ := findByID_some hfj
          have hother : ∀ x, s.quotes[k]? = some x → x.ID ≠ id := by
            intro x hx
            rw [hk1] at hx
            have := Option.some.inj hx
            subst this
            omega
          have hset : findByID id (s.quotes.set k { c with ID := j }) =
              findByID id s.quotes := findByID_set_other hj hother
          simp [handle, updateQuote_of_find hfj, addedAtOf, hset, hf, ha]
    | delete j =>
      have hj : j ≠ id := by
        intro hji
        exact hdel (by rw [hji])
      cases hfj : findByID j s.quotes with
      | none => simp [handle, deleteQuote_of_none hfj, addedAtOf, hf, ha]
      | some p =>
        obtain ⟨k, qk⟩ := p
        obtain ⟨hk1, hk2, -⟩ := findByID_some hfj
        have hother : ∀ x, s.quotes[k]? = some x → x.ID ≠ id := by
          intro x hx
          rw [hk1] at hx
          have := Option.some.inj hx
          subst this
          omega
        have herase : (findByID id (s.quotes.eraseIdx k)).map Prod.snd =
            (findByID id s.quotes).map Prod.snd := findByID_eraseIdx_other hother
        rw [hf] at herase
        simp only [Option.map_some'] at herase
        simp only [handle, deleteQuote_of_find hfj, addedAtOf]
        cases hfe : findByID id (s.quotes.eraseIdx k) with
        | none => rw [hfe] at herase; simp at herase
        | some p' =>
          rw [hfe] at herase
          simp only [Option.map_some', Option.some.injEq] at herase
          simp [herase, ha]
  · intro c
    have hset : findByID id (s.quotes.set i { c with ID := id }) =
        some (i, { c with ID := id }) := findByID_set_self hf rfl
    simp [handle, updateQuote_of_find hf, addedAtOf, hset]

/-- Witness of C10 amended: quote 2 of the fresh store under an update of quote 1. -/
theorem addedAt_changes_only_by_update_witness :
    addedAtOf (run (initStore sampleClock) []) 2 = some "2024-01-01T00:00:00Z" ∧
    (((∀ c, Request.update 1 (some sampleQuote) ≠ Request.update 2 (some c)) →
        Request.update 1 (some sampleQuote) ≠ Request.delete 2 →
        addedAtOf (handle (run (initStore sampleClock) [])
          (Request.update 1 (some sampleQuote))).1 2 = some "2024-01-01T00:00:00Z") ∧
     (∀ c : Quote,
        addedAtOf (handle (run (initStore sampleClock) [])
          (Request.update 2 (some c))).1 2 = some c.AddedAt)) :=
  ⟨by decide,
   addedAt_changes_only_by_update sampleClock [] (Request.update 1 (some sampleQuote)) 2
     "2024-01-01T00:00:00Z" (by decide)⟩

/-- C11 (create populates the record): for every store and every decoded payload
`q`, `createQuote` answers 201 with the record that has the text, author, category and
color of `q`, the id `nextID` of the store before the call and the clock reading as
addedAt, whatever id and addedAt `q` carries; afterwards `nextID` is larger by one and
the sequence is the old one with that record appended. -/
theorem create_populates_record (s : Store) (q : Quote) (now : String) :
    (createQuote s (some q) now).2 =
      { status := 201, contentType := some applicationJSON,
        body := Body.quote { ID := s.nextID, Text := q.Text, Author := q.Author,
                             Category := q.Category, Color := q.Color, AddedAt := now } } ∧
    (createQuote s (some q) now).1.nextID = s.nextID + 1 ∧
    (createQuote s (some q) now).1.quotes =
      s.quotes ++ [{ ID := s.nextID, Text := q.Text, Author := q.Author,
                     Category := q.Category, Color := q.Color, AddedAt := now }] ∧
    (∀ (id : Int) (addedAt : String),
      createQuote s (some { q with ID := id, AddedAt := addedAt }) now =
        createQuote s (some q) now) :=
  ⟨rfl, rfl, rfl, fun _ _ => rfl⟩

/-- C12 (get): for every store and id, `getQuote` leaves the store as it is; it
answers 200 with a stored record carrying the requested id when there is one, and it
answers 404, with the error "Quote not found", exactly when no stored record carries
the id.  On the fresh store `getQuote` on 3 answers 200 with the "Design is not
just ..." quote. -/
theorem get_returns_match_or_not_found (s : Store) (id : Int) :
    (getQuote s id).1 = s ∧
    ((∃ q ∈ s.quotes, q.ID = id) →
      ∃ r ∈ s.quotes, r.ID = id ∧ (getQuote s id).2.status = 200 ∧
        (getQuote s id).2.body = Body.quote r) ∧
    ((getQuote s id).2.status = 404 ↔ ∀ q ∈ s.quotes, q.ID ≠ id) ∧
    ((∀ q ∈ s.quotes, q.ID ≠ id) →
      (getQuote s id).2.body = Body.error "Quote not found") ∧
    (∀ t : Fin 5 → String,
      (getQuote (initStore t) 3).2 =
        { status := 200, contentType := some applicationJSON,
          body := Body.quote
            { ID := 3
              Text := "Design is not just what it looks like and feels like. Design is how it works."
              Author := "Steve Jobs"
              Category := "Design"
              Color := "from-green-400 to-teal-500"
              AddedAt := t 2 } }) := by
  refine ⟨getQuote_store s id, ?_, ?_, ?_, ?_⟩
  · intro h
    obtain ⟨i, r, hf⟩ := findByID_of_mem h
    refine ⟨r, findByID_mem hf, (findByID_some hf).2.1, ?_, ?_⟩
    · simp only [getQuote, hf]
    · simp only [getQuote, hf]
  · constructor
    · intro h404
      cases hf : findByID id s.quotes with
      | none => exact findByID_eq_none.mp hf
      | some p =>
        simp [getQuote, hf] at h404
    · intro h
      simp only [getQuote, findByID_eq_none.mpr h, notFound]
  · intro h
    simp only [getQuote, findByID_eq_none.mpr h, notFound]
  · intro t
    simp [getQuote, initStore, seedQuotes, findByID]

/-- C13 (create rejects a bad body): `createQuote` answers 400 exactly when the body
does not decode; the answer then carries the error "Invalid request body" and the
store, sequence and `nextID`, is the one before the call. -/
theorem create_bad_body (s : Store) (d : Option Quote) (now : String) :
    ((createQuote s d now).2.status = 400 ↔ d = none) ∧
    (d = none →
      (createQuote s d now).2.body = Body.error "Invalid request body" ∧
      (createQuote s d now).1.quotes = s.quotes ∧
      (createQuote s d now).1.nextID = s.nextID) := by
  cases d with
  | none => exact ⟨⟨fun _ => rfl, fun _ => rfl⟩, fun _ => ⟨rfl, rfl, rfl⟩⟩
  | some q =>
    refine ⟨⟨fun h => ?_, fun h => ?_⟩, fun h => ?_⟩
    · simp [createQuote] at h
    · simp at h
    · simp at h

/-- C14 (failure cases of update): for every store, `updateQuote` answers 400, with
"Invalid request body", exactly when the body does not decode, whether or not the id
exists; it answers 404, with "Quote not found", exactly when the body decodes and no
stored record carries the id; it answers 200 in the remaining case.  On 400 and on 404
the store is the one before the call.  On the fresh store an update of id 99 with a
decodable body answers 404. -/
theorem update_failure_cases (s : Store) (id : Int) (d : Option Quote) :
    ((updateQuote s id d).2.status = 400 ↔ d = none) ∧
    ((updateQuote s id d).2.status = 404 ↔
      d ≠ none ∧ ∀ q ∈ s.quotes, q.ID ≠ id) ∧
    ((updateQuote s id d).2.status = 200 ↔
      d ≠ none ∧ ∃ q ∈ s.quotes, q.ID = id) ∧
    ((updateQuote s id d).2.status = 400 →
      (updateQuote s id d).2.body = Body.error "Invalid request body" ∧
      (updateQuote s id d).1 = s) ∧
    ((updateQuote s id d).2.status = 404 →
      (updateQuote s id d).2.body = Body.error "Quote not found" ∧
      (updateQuote s id d).1 = s) ∧
    (∀ (t : Fin 5 → String) (c : Quote),
      (updateQuote (initStore t) 99 (some c)).2.status = 404 ∧
      (updateQuote (initStore t) 99 (some c)).2.body = Body.error "Quote not found") := by
  have hfresh : ∀ (t : Fin 5 → String) (c : Quote),
      (updateQuote (initStore t) 99 (some c)).2.status = 404 ∧
      (updateQuote (initStore t) 99 (some c)).2.body = Body.error "Quote not found" := by
    intro t c
    simp [updateQuote, initStore, seedQuotes, findByID, notFound]
  cases d with
  | none =>
    refine ⟨by simp [updateQuote, badRequest], by simp [updateQuote, badRequest],
      by simp [updateQuote, badRequest], fun _ => ⟨rfl, rfl⟩, ?_, hfresh⟩
    intro h
    simp [updateQuote, badRequest] at h
  | some u =>
    cases hf : findByID id s.quotes with
    | none =>
      have hall := findByID_eq_none.mp hf
      rw [updateQuote_of_none hf]
      refine ⟨by simp [notFound], by simpa [notFound] using hall, ?_, ?_,
        fun _ => ⟨rfl, rfl⟩, hfresh⟩
      · simp only [notFound]
        constructor
        · intro h
          simp at h
        · rintro ⟨-, q, hq, hid⟩
          exact absurd hid (hall q hq)
      · intro h
        simp [notFound] at h
    | some p =>
      obtain ⟨i, q0⟩ := p
      have hmem : ∃ q ∈ s.quotes, q.ID = id :=
        ⟨q0, findByID_mem hf, (findByID_some hf).2.1⟩
      rw [updateQuote_of_find hf]
      refine ⟨by simp, ?_, by simpa using hmem, ?_, ?_, hfresh⟩
      · constructor
        · intro h
          simp at h
        · rintro ⟨-, hall⟩
          obtain ⟨q, hq, hid⟩ := hmem
          exact absurd hid (hall q hq)
      · intro h
        simp at h
      · intro h
        simp at h

theorem mem_of_SkipSpace {cs rest : List Char} (h : SkipSpace cs = some rest) :
    ∀ c ∈ rest, c ∈ cs := by
  induction cs with
  | nil =>
    simp only [SkipSpace, Option.some.injEq] at h
    subst h
    intro c hc
    exact hc
  | cons a cs ih =>
    unfold SkipSpace at h
    split at h
    · simp at h
    · split at h
      · intro c hc
        exact List.mem_cons_of_mem _ (ih h c hc)
      · simp only [Option.some.injEq] at h
        subst h
        intro c hc
        exact hc

theorem parseDigits_none_of_not_digit {c : Char} (cs : List Char) (acc : Nat)
    (hc : ¬ (48 ≤ c.toNat ∧ c.toNat ≤ 57)) : parseDigits (c :: cs) acc = none := by
  simp only [parseDigits, hc, if_false]

theorem scanInt_none_of_no_digit {cs : List Char}
    (h : ∀ c ∈ cs, ¬ (48 ≤ c.toNat ∧ c.toNat ≤ 57)) : scanInt cs = none := by
  unfold scanInt
  cases hs : SkipSpace cs with
  | none => rfl
  | some rest =>
    cases rest with
    | nil => rfl
    | cons a rest =>
      have hmem := mem_of_SkipSpace hs
      simp only
      split
      · rfl
      · next b tok htok =>
        have hb : b ∈ a :: rest := by
          have h1 : b ∈ List.takeWhile isDecimalDigit
              (if a.toNat = 43 ∨ a.toNat = 45 then rest else a :: rest) := by
            rw [htok]
            exact List.mem_cons_self _ _
          have h2 := (List.takeWhile_sublist _).subset h1
          split at h2
          · exact List.mem_cons_of_mem _ h2
          · exact h2
        rw [htok, parseDigits_none_of_not_digit tok 0 (h b (hmem b hb))]

theorem pathID_reads_leading_digits :
    pathID "1_000" = 1 ∧ pathID "2_" = 2 ∧ pathID "-3_" = -3 ∧ pathID "3_abc" = 3 ∧
    pathID " 42" = 42 ∧ pathID "abc" = 0 ∧ pathID "_1" = 0 ∧
    pathID "99999999999999999999" = 0 := by
  decide

theorem storeInv_no_zero {s : Store} (h : StoreInv s) : findByID 0 s.quotes = none := by
  rw [findByID_eq_none]
  intro q hq h0
  have := (h.2.1 q.ID (List.mem_map_of_mem _ hq)).1
  omega

/-- C15, as stated, fails: the path segment "3abc" is not a decimal integer, yet the
scan of `%d` stops after the leading digit and leaves 3 in `id`, so `getQuote` on that
segment answers 200 on the fresh store. -/
theorem non_numeric_segment_parsed_as_prefix :
    pathID "3abc" = 3 ∧
    (getQuote (initStore sampleClock) (pathID "3abc")).2.status = 200 := by
  decide

/-- C15, amended: for every path segment on which the scan of `%d` reports an error,
the parsed id is the zero value, and on every store reached from the seeded store
`getQuote`, `deleteQuote` and `updateQuote` with a decodable body answer 404 with
"Quote not found" on that segment, because no reachable store holds a record with
id 0.  Every segment without a decimal digit is such a segment. -/
theorem failed_scan_is_not_found (segment : String) (t : Fin 5 → String)
    (rs : List Request) (c : Quote) (h : scanInt segment.data = none) :
    pathID segment = 0 ∧
    (∀ q ∈ (run (initStore t) rs).quotes, q.ID ≠ 0) ∧
    (getQuote (run (initStore t) rs) (pathID segment)).2 = notFound ∧
    (deleteQuote (run (initStore t) rs) (pathID segment)).2 = notFound ∧
    (updateQuote (run (initStore t) rs) (pathID segment) (some c)).2 = notFound ∧
    notFound.status = 404 ∧ notFound.body = Body.error "Quote not found" ∧
    (∀ other : String, (∀ x ∈ other.data, ¬ (48 ≤ x.toNat ∧ x.toNat ≤ 57)) →
      scanInt other.data = none) := by
  have hinv := storeInv_run (storeInv_init t) rs
  have h0 : pathID segment = 0 := by simp only [pathID, h, Option.getD_none]
  have hz := storeInv_no_zero hinv
  refine ⟨h0, findByID_eq_none.mp hz, ?_, ?_, ?_, rfl, rfl, ?_⟩
  · rw [h0]
    simp only [getQuote, hz]
  · rw [h0, deleteQuote_of_none hz]
  · rw [h0, updateQuote_of_none hz]
  · intro other hno
    exact scanInt_none_of_no_digit hno

/-- Witness of C15 amended: the segment "abc" on the fresh store. -/
theorem failed_scan_is_not_found_witness :
    scanInt "abc".data = none ∧
    (pathID "abc" = 0 ∧
     (∀ q ∈ (run (initStore sampleClock) []).quotes, q.ID ≠ 0) ∧
     (getQuote (run (initStore sampleClock) []) (pathID "abc")).2 = notFound ∧
     (deleteQuote (run (initStore sampleClock) []) (pathID "abc")).2 = notFound ∧
     (updateQuote (run (initStore sampleClock) []) (pathID "abc") (some sampleQuote)).2
       = notFound ∧
     notFound.status = 404 ∧ notFound.body = Body.error "Quote not found" ∧
     (∀ other : String, (∀ x ∈ other.data, ¬ (48 ≤ x.toNat ∧ x.toNat ≤ 57)) →
       scanInt other.data = none)) :=
  ⟨by decide, failed_scan_is_not_found "abc" sampleClock [] sampleQuote (by decide)⟩

/-- C16, as stated, fails: the 204 answer of a delete, here of quote 1 on the fresh
store, has an empty body and no `Content-Type` set by the handler. -/
theorem delete_answer_without_content_type :
    (deleteQuote (initStore sampleClock) 1).2 =
      { status := 204, contentType := none, body := Body.empty } := by
  decide

/-- C16, amended: every answer of the five handlers with status 200 or 201 carries the
header `Content-Type: application/json`, set by the handler before the header is
written; the 204 answer of a delete has an empty body and no `Content-Type` set by the
handler. -/
theorem content_type_on_success (s : Store) (r : Request) :
    ((handle s r).2.status = 200 ∨ (handle s r).2.status = 201 →
      (handle s r).2.contentType = some "application/json") ∧
    ((handle s r).2.status = 204 →
      (handle s r).2.contentType = none ∧ (handle s r).2.body = Body.empty) := by
  cases r with
  | list => simp [handle, getQuotes, applicationJSON]
  | get id =>
    cases hf : findByID id s.quotes with
    | none => simp [handle, getQuote, hf, notFound]
    | some p => simp [handle, getQuote, hf, applicationJSON]
  | create d now =>
    cases d with
    | none => simp [handle, createQuote, badRequest]
    | some q => simp [handle, createQuote, applicationJSON]
  | update id d =>
    cases d with
    | none => simp [handle, updateQuote, badRequest]
    | some u =>
      cases hf : findByID id s.quotes with
      | none => simp [handle, updateQuote_of_none hf, notFound]
      | some p =>
        obtain ⟨i, q0⟩ := p
        simp [handle, updateQuote_of_find hf, applicationJSON]
  | delete id =>
    cases hf : findByID id s.quotes with
    | none => simp [handle, deleteQuote_of_none hf, notFound]
    | some p =>
      obtain ⟨i, q0⟩ := p
      simp [handle, deleteQuote_of_find hf]

/-- C17 (fresh store): the initial store holds exactly five quotes, with the ids 1, 2,
3, 4, 5 in this order, and `nextID` is 6, one past the highest seeded id; the first
`createQuote` with a decodable body on it answers 201 with a record whose id is 6. -/
theorem fresh_store (t : Fin 5 → String) :
    (initStore t).quotes.length = 5 ∧
    (initStore t).ids = [1, 2, 3, 4, 5] ∧
    (initStore t).nextID = 6 ∧
    (∀ x ∈ (initStore t).ids, x + 1 ≤ (initStore t).nextID) ∧
    (5 : Int) ∈ (initStore t).ids ∧
    (∀ (q : Quote) (now : String), ∃ r : Quote,
      (createQuote (initStore t) (some q) now).2 =
        { status := 201, contentType := some applicationJSON, body := Body.quote r } ∧
      r.ID = 6) := by
  refine ⟨rfl, rfl, rfl, ?_, ?_, ?_⟩
  · intro x hx
    simp only [Store.ids, initStore, seedQuotes, List.map_cons, List.map_nil,
      List.mem_cons, List.mem_singleton, List.not_mem_nil, or_false] at hx
    have h6 : (initStore t).nextID = 6 := rfl
    omega
  · simp [Store.ids, initStore, seedQuotes]
  · intro q now
    exact ⟨{ q with ID := 6, AddedAt := now }, rfl, rfl⟩

/-- C19 (update frame): for every store, id and decoded candidate, an `updateQuote`
answering 200 replaces the record at the first position whose id matches and nothing
else: the sequence keeps its length, every other position keeps its record, and
`nextID` is unchanged. -/
theorem update_frame (s : Store) (id : Int) (c : Quote)
    (h : (updateQuote s id (some c)).2.status = 200) :
    ∃ i : Nat, i < s.quotes.length ∧
      (s.quotes[i]?).map Quote.ID = some id ∧
      (∀ j, j < i → ∀ q, s.quotes[j]? = some q → q.ID ≠ id) ∧
      (updateQuote s id (some c)).1.quotes = s.quotes.set i { c with ID := id } ∧
      (updateQuote s id (some c)).1.quotes.length = s.quotes.length ∧
      (∀ j, j ≠ i → (updateQuote s id (some c)).1.quotes[j]? = s.quotes[j]?) ∧
      (updateQuote s id (some c)).1.nextID = s.nextID := by
  cases hf : findByID id s.quotes with
  | none =>
    rw [updateQuote_of_none hf] at h
    simp [notFound] at h
  | some p =>
    obtain ⟨i, q0⟩ := p
    obtain ⟨h1, h2, h3⟩ := findByID_some hf
    rw [updateQuote_of_find hf]
    refine ⟨i, findByID_lt hf, ?_, h3, rfl, ?_, ?_, rfl⟩
    · rw [h1, Option.map_some', h2]
    · simp
    · intro j hj
      simp only [List.getElem?_set]
      rw [if_neg (fun hij => hj hij.symm)]

/-- Witness of C19: updating quote 3 of the fresh store. -/
theorem update_frame_witness :
    (updateQuote (initStore sampleClock) 3 (some sampleQuote)).2.status = 200 ∧
    (∃ i : Nat, i < (initStore sampleClock).quotes.length ∧
      ((initStore sampleClock).quotes[i]?).map Quote.ID = some 3 ∧
      (∀ j, j < i → ∀ q, (initStore sampleClock).quotes[j]? = some q → q.ID ≠ 3) ∧
      (updateQuote (initStore sampleClock) 3 (some sampleQuote)).1.quotes =
        (initStore sampleClock).quotes.set i { sampleQuote with ID := 3 } ∧
      (updateQuote (initStore sampleClock) 3 (some sampleQuote)).1.quotes.length =
        (initStore sampleClock).quotes.length ∧
      (∀ j, j ≠ i → (updateQuote (initStore sampleClock) 3 (some sampleQuote)).1.quotes[j]? =
        (initStore sampleClock).quotes[j]?) ∧
      (updateQuote (initStore sampleClock) 3 (some sampleQuote)).1.nextID =
        (initStore sampleClock).nextID) :=
  ⟨by decide, update_frame (initStore sampleClock) 3 sampleQuote (by decide)⟩

theorem handle_nextID_eq (s : Store) (r : Request) :
    (handle s r).1.nextID = s.nextID + (createdBy r (handle s r).2).length := by
  cases r with
  | list => simp [handle, getQuotes, createdBy]
  | get id => simp [handle, getQuote_store, createdBy]
  | create d now =>
    cases d with
    | none => simp [handle, createQuote, createdBy, badRequest]
    | some q => simp [handle, createQuote, createdBy]
  | update id d => simp [handle, updateQuote_nextID, createdBy]
  | delete id => simp [handle, deleteQuote_nextID, createdBy]

theorem run_nextID_eq (s : Store) (rs : List Request) :
    (run s rs).nextID = s.nextID + (createdQuotes s rs).length := by
  induction rs generalizing s with
  | nil => simp [run, createdQuotes]
  | cons r rs ih =>
    simp only [run, createdQuotes, List.length_append, ih, handle_nextID_eq s r]
    push_cast
    ring

/-- C20 (nextID frame): `getQuotes`, `getQuote`, `updateQuote`, `deleteQuote` and a
`createQuote` whose body does not decode leave `nextID` as it is, a `createQuote` with
a decodable body raises it by exactly one; so after any request sequence served from
the fresh store `nextID` is 6 plus the number of successful creations. -/
theorem nextID_counts_creations (t : Fin 5 → String) (rs : List Request) :
    (∀ s : Store, (getQuotes s).1.nextID = s.nextID) ∧
    (∀ (s : Store) (id : Int), (getQuote s id).1.nextID = s.nextID) ∧
    (∀ (s : Store) (id : Int) (d : Option Quote),
      (updateQuote s id d).1.nextID = s.nextID) ∧
    (∀ (s : Store) (id : Int), (deleteQuote s id).1.nextID = s.nextID) ∧
    (∀ (s : Store) (now : String), (createQuote s none now).1.nextID = s.nextID) ∧
    (∀ (s : Store) (q : Quote) (now : String),
      (createQuote s (some q) now).2.status = 201 ∧
      (createQuote s (some q) now).1.nextID = s.nextID + 1) ∧
    (run (initStore t) rs).nextID = 6 + (createdQuotes (initStore t) rs).length := by
  refine ⟨fun _ => rfl, ?_, updateQuote_nextID, deleteQuote_nextID, fun _ _ => rfl,
    fun _ _ _ => ⟨rfl, rfl⟩, ?_⟩
  · intro s id
    rw [getQuote_store]
  · rw [run_nextID_eq]
    rfl

end QuotesApp
